import Mathlib

/-!
Shallow embedding of the Caption Aggregation & Broadcast Engine of
`captionStable.py` (voskcaption) and proofs about its specification claims.

Python dictionaries are modelled as association lists with unique keys
(insertion order preserved, as in CPython 3.7+); Python wall-clock times are
modelled as integer seconds (every instant in the claims is integral); Python exceptions are modelled as an `Option PyError`
result component, with all mutations performed before the raise preserved in
the returned state (matching CPython semantics for module-level globals).
-/

namespace CaptionStable

/-- Errors raised by the embedded Python code. -/
inductive PyError where
  | keyError (key : String)
  | unboundLocal (name : String)
deriving DecidableEq

/-! ### Python dict operations (association lists, unique keys) -/

/-- `d.get(k)` / `d[k]` lookup on a Python dict. -/
def dget {α : Type} : List (String × α) → String → Option α
  | [], _ => none
  | p :: rest, k => if p.1 = k then some p.2 else dget rest k

/-- `d[k] = v` on a Python dict: overwrite in place, or append a new key. -/
def dset {α : Type} : List (String × α) → String → α → List (String × α)
  | [], k, v => [(k, v)]
  | p :: rest, k, v => if p.1 = k then (k, v) :: rest else p :: dset rest k v

/-- `del d[k]` on a Python dict. -/
def ddel {α : Type} : List (String × α) → String → List (String × α)
  | [], _ => []
  | p :: rest, k => if p.1 = k then rest else p :: ddel rest k

theorem dget_dset_self {α : Type} (d : List (String × α)) (k : String) (v : α) :
    dget (dset d k v) k = some v := by
  induction d with
  | nil => simp [dget, dset]
  | cons p rest ih =>
    by_cases h : p.1 = k
    · simp [dget, dset, h]
    · simp [dget, dset, h, ih]

theorem dget_dset_ne {α : Type} (d : List (String × α)) (k k' : String) (v : α)
    (h : k' ≠ k) : dget (dset d k v) k' = dget d k' := by
  have hkk' : ¬ (k = k') := fun hh => h hh.symm
  induction d with
  | nil => simp [dget, dset, hkk']
  | cons p rest ih =>
    by_cases hp : p.1 = k
    · rw [show dset (p :: rest) k v = (k, v) :: rest by simp [dset, hp]]
      simp [dget, hkk', hp]
    · rw [show dset (p :: rest) k v = p :: dset rest k v by simp [dset, hp]]
      by_cases hp' : p.1 = k'
      · simp [dget, hp', ih]
      · simp [dget, hp', ih]

/-! ### Python string operations -/

/-- Python `str.lower()`. -/
def pyLower (s : String) : String :=
  String.mk (s.data.map Char.toLower)

/-- Python `str.strip()`: remove leading and trailing whitespace. -/
def pyStrip (s : String) : String :=
  String.mk (((s.data.dropWhile Char.isWhitespace).reverse.dropWhile
    Char.isWhitespace).reverse)

/-- Python `str.capitalize()`: first character upper-cased, the rest
lower-cased. -/
def pyCapitalize (s : String) : String :=
  match s.data with
  | [] => ""
  | c :: rest => String.mk (c.toUpper :: rest.map Char.toLower)

/-- Character-level model of Python `str.split()` (split on runs of
whitespace, dropping empty tokens).  A non-whitespace character extends the
token that starts at the next character unless that next character is
whitespace. -/
def splitChars : List Char → List (List Char)
  | [] => []
  | [c] => if c.isWhitespace then [] else [[c]]
  | c :: d :: rest =>
    if c.isWhitespace then splitChars (d :: rest)
    else
      match splitChars (d :: rest) with
      | [] => [[c]]
      | t :: ts => if d.isWhitespace then [c] :: t :: ts else (c :: t) :: ts

/-- Python `text.split()`. -/
def pySplit (s : String) : List String :=
  (splitChars s.data).map (fun cs => String.mk cs)

/-- Character-level model of Python `sep.join(...)` for a one-character
separator. -/
def joinChars (sep : Char) : List (List Char) → List Char
  | [] => []
  | [w] => w
  | w :: ws => w ++ sep :: joinChars sep ws

/-- Python `sep.join(words)` for a one-character separator. -/
def pyJoin (sep : Char) (ws : List String) : String :=
  String.mk (joinChars sep (ws.map String.data))

/-- Python slice `l[-n:]`.  Note the `n = 0` quirk: `l[-0:]` is `l[0:]`,
the whole list. -/
def pySliceLast {α : Type} (n : Nat) (l : List α) : List α :=
  if n = 0 then l else l.drop (l.length - n)

/-- The last `n` elements of a list. -/
def takeLast {α : Type} (n : Nat) (l : List α) : List α :=
  l.drop (l.length - n)

/-- Greedy line fill modelling Python `textwrap.wrap(text, width)`:
tokenize on whitespace and pack words into lines of at most `width`
characters (a word longer than `width` occupies its own line). -/
def wrapFill (width : Nat) : List String → String → List String
  | [], cur => [cur]
  | w :: rest, cur =>
    if cur.length + 1 + w.length ≤ width then
      wrapFill width rest (cur ++ " " ++ w)
    else
      cur :: wrapFill width rest w

/-- Python `textwrap.wrap(s, width)`; returns `[]` on blank input. -/
def pyWrap (width : Nat) (s : String) : List String :=
  match pySplit s with
  | [] => []
  | w :: ws => wrapFill width ws w

/-! ### Text Normalizer (lines 769-777 of captionStable.py) -/

/-- The correction tables loaded from `dictionary.json`:
`spelling_corrections` and `bible_books`. -/
structure CorrectionDicts where
  spelling : List (String × String)
  bible : List String

/-- `spelling_corrections(text)`: split into words, replace each word by
`spelling_corrections_dict.get(word.lower(), word)`, and re-join with
single spaces. -/
def spelling_corrections (d : List (String × String)) (text : String) : String :=
  pyJoin ' ' ((pySplit text).map (fun w => (dget d (pyLower w)).getD w))

/-- `correct_bible_books(text)`: split into words, capitalize each word
whose lower-casing occurs among the lower-cased `bible_books`, re-join. -/
def correct_bible_books (books : List String) (text : String) : String :=
  pyJoin ' ' ((pySplit text).map (fun w =>
    if pyLower w ∈ books.map pyLower then pyCapitalize w else w))

/-- `apply_text_corrections(text)`: spelling replacement, then Bible-book
capitalization. -/
def apply_text_corrections (dicts : CorrectionDicts) (text : String) : String :=
  correct_bible_books dicts.bible (spelling_corrections dicts.spelling text)

/-! ### Production projection (lines 826-898 of captionStable.py) -/

/-- The configuration values read from `CONFIG` by the production view. -/
structure ProdConfig where
  max_line_length : Nat
  max_transcript_lines : Nat
  pause_threshold_seconds : ℤ

/-- The module-level production-view state. -/
structure ProdState where
  transcript : List String
  production_caption : String
  production_caption_history : String
  production_last_event_time : ℤ
  last_caption : String

/-- `check_and_clear_on_pause()`: if more than `pause_threshold` seconds
have passed since the last speech event and the displayed caption is
non-blank, clear the displayed caption (history and transcript untouched). -/
def check_and_clear_on_pause (pause_threshold : ℤ) (now : ℤ) (s : ProdState) :
    ProdState :=
  if now - s.production_last_event_time > pause_threshold then
    if pyStrip s.production_caption ≠ "" then { s with production_caption := "" }
    else s
  else s

/-- The transcript update performed on a finalized caption: append, then
truncate with `transcript[-max_transcript_lines:]` when over the bound. -/
def transcriptPush (maxLines : Nat) (transcript : List String) (entry : String) :
    List String :=
  if (transcript ++ [entry]).length > maxLines then
    pySliceLast maxLines (transcript ++ [entry])
  else transcript ++ [entry]

/-- `process_production_speech_text(text=..., is_recognized=...)` (the
`translations=None` call form used by the production recognizer).  A falsy
`text` (`None` or `""`) leaves the translations dict empty, so only the
pause check runs. -/
def process_production_speech_text (cfg : ProdConfig) (dicts : CorrectionDicts)
    (now : ℤ) (text : Option String) (is_recognized : Bool) (s : ProdState) :
    ProdState :=
  let s1 :=
    match text with
    | none => s
    | some t =>
      if t = "" then s
      else
        let corrected := apply_text_corrections dicts t
        let s' := { s with production_last_event_time := now }
        if is_recognized then
          let tr := transcriptPush cfg.max_transcript_lines s'.transcript corrected
          let hist :=
            if s'.production_caption_history ≠ "" then
              s'.production_caption_history ++ " " ++ corrected
            else corrected
          { s' with
            transcript := tr
            production_caption_history := hist
            production_caption := ((pyWrap cfg.max_line_length corrected).getLast?).getD "" }
        else
          { s' with
            production_caption := ((pyWrap cfg.max_line_length corrected).getLast?).getD "" }
  let s2 := check_and_clear_on_pause cfg.pause_threshold_seconds now s1
  { s2 with last_caption := s2.production_caption }

/-! ### Audience (user-view) projection (lines 750-824, 901-980 of
captionStable.py) -/

/-- The values read from `USER_SETTINGS` by the user view. -/
structure UserSettings where
  user_max_line_length : Nat
  user_lines : Nat
  user_auto_finalize_delay : ℤ

/-- The module-level user-view state.  The pending auto-finalize `Timer` is
modelled by its absolute firing deadline. -/
structure UserState where
  user_caption : String
  user_caption_update_pending : Bool
  user_caption_history : List (String × List String)
  user_last_text : List (String × String)
  user_auto_finalize_timer : Option ℤ
  user_speech_start_time : List (String × ℤ)

/-- The state after module initialization: every supported language gets an
empty history and empty interim text. -/
def initUserState (langs : List String) : UserState where
  user_caption := ""
  user_caption_update_pending := false
  user_caption_history := langs.map (fun l => (l, []))
  user_last_text := langs.map (fun l => (l, ""))
  user_auto_finalize_timer := none
  user_speech_start_time := []

/-- The history update performed on a new finalized caption: append, then
truncate with `history[-user_max_lines:]` when over the bound. -/
def histPush (maxLines : Nat) (h : List String) (entry : String) : List String :=
  if (h ++ [entry]).length > maxLines then pySliceLast maxLines (h ++ [entry])
  else h ++ [entry]

/-- The branch on `is_recognized` inside the per-language loop of
`process_user_speech_text` (lines 920-953).  On a final: append to history
when new (`KeyError` on a missing key), clear interim text, cancel the
auto-finalize timer.  On an interim: store the interim text, record the
speech start time, and (re)start the shared auto-finalize timer. -/
def userStep1 (uset : UserSettings) (now : ℤ) (is_recognized : Bool)
    (lang corrected : String) (s : UserState) : UserState × Option PyError :=
  if is_recognized then
    if pyStrip corrected ≠ "" then
      match dget s.user_caption_history lang with
      | none => (s, some (.keyError lang))
      | some h =>
        let newHist := dset s.user_caption_history lang (histPush uset.user_lines h corrected)
        let sA :=
          if h = [] ∨ corrected ≠ h.getLastD "" then
            { s with user_caption_history := newHist }
          else s
        let sB := { sA with user_last_text := dset sA.user_last_text lang "" }
        let sC :=
          if sB.user_auto_finalize_timer.isSome then
            { sB with user_auto_finalize_timer := none }
          else sB
        (sC, none)
    else (s, none)
  else
    let sA := { s with user_last_text := dset s.user_last_text lang corrected }
    let sB :=
      if dget sA.user_speech_start_time lang = none then
        { sA with user_speech_start_time := dset sA.user_speech_start_time lang now }
      else sA
    -- cancel any existing timer, then start a fresh one
    let newTimer := some (now + uset.user_auto_finalize_delay)
    let sC := { sB with user_auto_finalize_timer := newTimer }
    (sC, none)

/-- The display-building tail of the per-language loop (lines 955-980):
join the wrapped history and interim text of `lang` into `user_caption`
(`KeyError` on a missing key) and schedule the debounced broadcast when
none is pending. -/
def userDisplay (uset : UserSettings) (lang : String) (s1 : UserState) :
    UserState × Option PyError :=
  match dget s1.user_caption_history lang with
  | none => (s1, some (.keyError lang))
  | some h =>
    match dget s1.user_last_text lang with
    | none => (s1, some (.keyError lang))
    | some lt =>
      let display_lines :=
        h.flatMap (pyWrap uset.user_max_line_length) ++
          (if lt ≠ "" ∧ pyStrip lt ≠ "" then pyWrap uset.user_max_line_length lt
           else [])
      let s2 := { s1 with user_caption :=
                    if display_lines ≠ [] then pyJoin '\n' display_lines else "" }
      let s3 :=
        if ¬ s2.user_caption_update_pending then
          { s2 with user_caption_update_pending := true }
        else s2
      (s3, none)

/-- The body of the per-language loop of `process_user_speech_text`
(lines 919-980): the finality branch followed by the display build. -/
def processOneLang (uset : UserSettings) (now : ℤ) (is_recognized : Bool)
    (lang corrected : String) (s : UserState) : UserState × Option PyError :=
  match userStep1 uset now is_recognized lang corrected s with
  | (s1, some e) => (s1, some e)
  | (s1, none) => userDisplay uset lang s1

/-- The `for lang, corrected_text in corrected_translations.items()` loop: a
raised exception aborts the remaining iterations. -/
def processLangs (uset : UserSettings) (now : ℤ) (is_recognized : Bool) :
    List (String × String) → UserState → UserState × Option PyError
  | [], s => (s, none)
  | (lang, t) :: rest, s =>
    match processOneLang uset now is_recognized lang t s with
    | (s', some e) => (s', some e)
    | (s', none) => processLangs uset now is_recognized rest s'

/-- `process_user_speech_text(text=..., translations=..., is_recognized=...)`:
merge the `text` argument into the translations dict, normalize every truthy
entry, then run the per-language loop. -/
def process_user_speech_text (uset : UserSettings) (dicts : CorrectionDicts)
    (now : ℤ) (text : Option String) (translations : List (String × String))
    (is_recognized : Bool) (s : UserState) : UserState × Option PyError :=
  let combined :=
    match text with
    | some t => if t ≠ "" then dset translations "en-US" t else translations
    | none => translations
  let corrected := (combined.filter (fun p => p.2 ≠ "")).map
    (fun p => (p.1, apply_text_corrections dicts p.2))
  processLangs uset now is_recognized corrected s

/-- One iteration of the auto-finalize flush for a language with non-blank
interim text: promote the interim text into history when new (`KeyError`
on a missing key), clear the interim text, and forget the speech start. -/
def autoFinOne (uset : UserSettings) (lang interim : String) (s : UserState) :
    UserState × Option PyError :=
  match dget s.user_caption_history lang with
  | none => (s, some (.keyError lang))
  | some h =>
    let newHist := dset s.user_caption_history lang (histPush uset.user_lines h interim)
    let sA :=
      if h = [] ∨ interim ≠ h.getLastD "" then
        { s with user_caption_history := newHist }
      else s
    let sB := { sA with user_last_text := dset sA.user_last_text lang "" }
    let sC :=
      if dget sB.user_speech_start_time lang ≠ none then
        { sB with user_speech_start_time := ddel sB.user_speech_start_time lang }
      else sB
    (sC, none)

/-- The `for lang, interim_text in user_last_text.items()` loop of
`auto_finalize_user_speech` (lines 801-816); a raised exception aborts the
remaining iterations. -/
def autoFinLoop (uset : UserSettings) :
    List (String × String) → UserState → UserState × Option PyError
  | [], s => (s, none)
  | (lang, interim) :: rest, s =>
    if interim ≠ "" ∧ pyStrip interim ≠ "" then
      match autoFinOne uset lang interim s with
      | (s', some e) => (s', some e)
      | (s', none) => autoFinLoop uset rest s'
    else autoFinLoop uset rest s

/-- `auto_finalize_user_speech()` (lines 793-824): flush the pending interim
text of every language into history, clear the timer, then reach
`if not user_caption_update_pending:` — which raises `UnboundLocalError`,
because `user_caption_update_pending` is assigned later in the function
without a `global` declaration.  The debounced broadcast is therefore never
scheduled. -/
def auto_finalize_user_speech (uset : UserSettings) (s : UserState) :
    UserState × Option PyError :=
  match autoFinLoop uset s.user_last_text s with
  | (s', some e) => (s', some e)
  | (s', none) =>
    let s2 := { s' with user_auto_finalize_timer := none }
    (s2, some (.unboundLocal "user_caption_update_pending"))

/-- `debounce_update_user_caption()` (lines 982-1010): when an update is
pending, assemble the per-language payload (joined history plus pending
interim text), send it when non-empty, and reset the pending flag. -/
def debounce_update_user_caption (s : UserState) :
    UserState × Option (List (String × String)) :=
  if s.user_caption_update_pending then
    let withHist := (s.user_caption_history.filter (fun p => p.2 ≠ [])).map
      (fun p => (p.1, pyJoin '\n' p.2))
    let allTranslations := s.user_last_text.foldl
      (fun acc p =>
        if p.2 ≠ "" ∧ pyStrip p.2 ≠ "" then
          match dget acc p.1 with
          | some v => dset acc p.1 (v ++ "\n" ++ p.2)
          | none => dset acc p.1 p.2
        else acc)
      withHist
    ({ s with user_caption_update_pending := false },
     if allTranslations ≠ [] then some allTranslations else none)
  else (s, none)

/-! ### Ingestion/Router: speech SDK event handlers (lines 779-791,
1019-1070 of captionStable.py) -/

/-- `map_azure_language_code`: map Azure Speech codes to dictionary codes. -/
def map_azure_language_code (azure_code : String) : String :=
  (dget [("es", "es-ES"), ("fr", "fr-FR"), ("de", "de-DE"), ("zh-Hans", "zh-CN"),
         ("ja", "ja-JP"), ("ru", "ru-RU"), ("ar", "ar-EG"), ("en-US", "en-US")]
    azure_code).getD azure_code

/-- `on_production_speech_recognizing` (interim result from the production
recognizer, always in en-US): process for the production view; process for
the user view only when the currently selected user language is en-US. -/
def on_production_speech_recognizing (cfg : ProdConfig) (uset : UserSettings)
    (dicts : CorrectionDicts) (now : ℤ) (current_user_language : String)
    (text : String) (ps : ProdState) (us : UserState) :
    ProdState × UserState × Option PyError :=
  let ps' := process_production_speech_text cfg dicts now (some text) false ps
  if current_user_language = "en-US" then
    let r := process_user_speech_text uset dicts now (some text) [] false us
    (ps', r.1, r.2)
  else (ps', us, none)

/-- `on_translation_recognizing` (interim result from the translation
recognizer): add en-US from the original text when absent, map Azure codes,
and process for the user view only when the selected user language is not
en-US — in which case every language of the bundle is processed. -/
def on_translation_recognizing (uset : UserSettings) (dicts : CorrectionDicts)
    (now : ℤ) (current_user_language : String)
    (translations : List (String × String)) (origText : String)
    (us : UserState) : UserState × Option PyError :=
  let td :=
    if origText ≠ "" ∧ dget translations "en-US" = none then
      translations ++ [("en-US", origText)]
    else translations
  let mapped := td.foldl (fun acc p => dset acc (map_azure_language_code p.1) p.2) []
  if current_user_language ≠ "en-US" then
    process_user_speech_text uset dicts now none mapped false us
  else (us, none)

/-! ### Clear, start and stop endpoints (lines 561-587, 1449-1478) -/

/-- `clear_production_captions` resets the production and user view state and
returns the two empty broadcast payloads (production payload, then the
user payload covering every supported language). -/
def clear_production_captions (supported_languages : List String)
    (ps : ProdState) (us : UserState) :
    (ProdState × UserState) × List (String × String) × List (String × String) :=
  let ps' := { ps with
    production_caption := ""
    production_caption_history := ""
    transcript := []
    last_caption := "" }
  let us' := { us with
    user_caption := ""
    user_caption_history := us.user_caption_history.map (fun p => (p.1, []))
    user_last_text := us.user_last_text.map (fun p => (p.1, "")) }
  ((ps', us'), [("en-US", "")], supported_languages.map (fun l => (l, "")))

/-- Recognizer activity flags plus the production state they guard. -/
structure RecogState where
  prod : ProdState
  is_recognizing : Bool
  should_be_recognizing : Bool

/-- `start_recognition` (happy path): start both recognizers and mark
recognition active. -/
def start_recognition (s : RecogState) : RecogState :=
  { s with is_recognizing := true, should_be_recognizing := true }

/-- `stop_recognition` (happy path): stop both recognizers and mark
recognition inactive. -/
def stop_recognition (s : RecogState) : RecogState :=
  { s with is_recognizing := false, should_be_recognizing := false }

/-- `POST /start_recognition`: start recognition, then clear the
accumulated production caption history. -/
def start_recognition_endpoint (s : RecogState) : RecogState :=
  let s1 := start_recognition s
  { s1 with prod.production_caption_history := "" }

/-- `POST /stop_recognition`: stop recognition, then clear the accumulated
production caption history. -/
def stop_recognition_endpoint (s : RecogState) : RecogState :=
  let s1 := stop_recognition s
  { s1 with prod.production_caption_history := "" }

/-! ### Broadcast fan-out (lines 643-668) -/

/-- The `for client in clients:` loop of `send_caption_to_clients`, with
CPython list-iterator semantics: the iterator holds an index that advances
by one per yielded element; `clients.remove(client)` on a send failure
shifts the remaining elements left underneath it.  Returns the list of
clients actually delivered to and the final registry. -/
def sendLoop (fails : Nat → Bool) : Nat → List Nat → Nat → List Nat →
    List Nat × List Nat
  | 0, clients, _, delivered => (delivered, clients)
  | fuel + 1, clients, i, delivered =>
    if h : i < clients.length then
      let c := clients.get ⟨i, h⟩
      if fails c then
        sendLoop fails fuel (clients.erase c) (i + 1) delivered
      else
        sendLoop fails fuel clients (i + 1) (delivered ++ [c])
    else (delivered, clients)

/-- `send_caption_to_clients(...)`: fan the payload out to every registered
client; a client whose send raises is removed from the registry.  The loop
runs at most `clients.length + 1` iterations (the index grows by one per
iteration and the list never grows), so this fuel is never exhausted. -/
def send_caption_to_clients (fails : Nat → Bool) (clients : List Nat) :
    List Nat × List Nat :=
  sendLoop fails (clients.length + 1) clients 0 []

/-! ### Concrete fixtures used by scenario theorems -/

/-- An empty correction table (no spelling fixes, no Bible books). -/
def emptyDicts : CorrectionDicts := ⟨[], []⟩

/-- User settings matching the documented defaults: 500-character lines,
3 history lines, 10-second auto-finalize delay. -/
def sampleUserSettings : UserSettings := ⟨500, 3, 10⟩

/-- A sample supported-language list. -/
def sampleLangs : List String := ["en-US", "fr-FR", "es-ES"]

/-! ### Claim theorems -/

/-- Claim C1 (code evaluated at the failing input): fanning out to
registered clients `[1, 2, 3]` where client 2's send fails delivers the
payload only to client 1 — client 3 is skipped, because
`clients.remove(client)` inside the `for client in clients` loop shifts the
list underneath the iterator — while client 2 is indeed removed from the
registry, leaving `[1, 3]`. -/
theorem broadcast_skips_client_after_failed_one :
    send_caption_to_clients (fun c => c == 2) [1, 2, 3] = ([1], [1, 3]) ∧
    3 ∉ (send_caption_to_clients (fun c => c == 2) [1, 2, 3]).1 ∧
    2 ∉ (send_caption_to_clients (fun c => c == 2) [1, 2, 3]).2 := by
  decide

/-- Scenario C5, step 1: the interim "hello" (en-US) arrives at t=0. -/
def autoFinStateA : UserState :=
  (process_user_speech_text sampleUserSettings emptyDicts 0 (some "hello") []
    false (initUserState sampleLangs)).1

/-- Scenario C5, step 2: an interim "bonjour" (fr-FR) also arrives at t=0. -/
def autoFinStateB : UserState :=
  (process_user_speech_text sampleUserSettings emptyDicts 0 none
    [("fr-FR", "bonjour")] false autoFinStateA).1

/-- Scenario C5, step 3: the ~100ms debounce broadcast fires, resetting the
pending flag. -/
def autoFinStateC : UserState :=
  (debounce_update_user_caption autoFinStateB).1

/-- Scenario C5, outcome (a): the auto-finalize timer fires at t=10. -/
def autoFinFired : UserState × Option PyError :=
  auto_finalize_user_speech sampleUserSettings autoFinStateC

/-- Scenario C5, outcome (b): a final "hello world" arrives at t=5 instead. -/
def autoFinCancelled : UserState × Option PyError :=
  process_user_speech_text sampleUserSettings emptyDicts 5 (some "hello world")
    [] true autoFinStateA

/-- Claim C5 (code evaluated at the failing input): with
`autoFinalizeDelaySeconds = 10`, an interim "hello" (en-US) at t=0 schedules
the auto-finalize timer for t=10; when it fires it promotes the pending
interim text of every language (here en-US "hello" and fr-FR "bonjour")
into history and clears it, but then raises `UnboundLocalError` on
`user_caption_update_pending` instead of scheduling the debounced audience
broadcast (the pending flag stays `false`); a final "hello world" arriving
at t=5 instead cancels the pending timer and appends "hello world". -/
theorem auto_finalize_scenario :
    autoFinStateA.user_auto_finalize_timer = some 10 ∧
    dget autoFinStateC.user_last_text "en-US" = some "hello" ∧
    dget autoFinStateC.user_last_text "fr-FR" = some "bonjour" ∧
    autoFinStateC.user_caption_update_pending = false ∧
    dget autoFinFired.1.user_caption_history "en-US" = some ["hello"] ∧
    dget autoFinFired.1.user_caption_history "fr-FR" = some ["bonjour"] ∧
    dget autoFinFired.1.user_last_text "en-US" = some "" ∧
    dget autoFinFired.1.user_last_text "fr-FR" = some "" ∧
    autoFinFired.1.user_auto_finalize_timer = none ∧
    autoFinFired.2 = some (PyError.unboundLocal "user_caption_update_pending") ∧
    autoFinFired.1.user_caption_update_pending = false ∧
    autoFinCancelled.1.user_auto_finalize_timer = none ∧
    dget autoFinCancelled.1.user_caption_history "en-US" = some ["hello world"] ∧
    dget autoFinCancelled.1.user_last_text "en-US" = some "" ∧
    autoFinCancelled.2 = none := by
  decide

/-- Claim C7: `clear_production_captions` resets the production state
(current line, accumulated context, transcript) and the audience state
(every language's history and interim text) to empty, broadcasts an empty
production payload and an empty audience payload for every supported
language, and is idempotent: clearing the already-cleared state returns
exactly the same result. -/
theorem clear_resets_and_idempotent (supported : List String)
    (ps : ProdState) (us : UserState) :
    (clear_production_captions supported ps us).1.1.production_caption = "" ∧
    (clear_production_captions supported ps us).1.1.production_caption_history = "" ∧
    (clear_production_captions supported ps us).1.1.transcript = [] ∧
    (clear_production_captions supported ps us).1.2.user_caption = "" ∧
    (∀ p ∈ (clear_production_captions supported ps us).1.2.user_caption_history, p.2 = ([] : List String)) ∧
    (∀ p ∈ (clear_production_captions supported ps us).1.2.user_last_text, p.2 = "") ∧
    (clear_production_captions supported ps us).2.1 = [("en-US", "")] ∧
    (∀ p ∈ (clear_production_captions supported ps us).2.2, p.2 = "") ∧
    clear_production_captions supported
        (clear_production_captions supported ps us).1.1
        (clear_production_captions supported ps us).1.2 =
      clear_production_captions supported ps us := by
  refine ⟨rfl, rfl, rfl, rfl, ?_, ?_, rfl, ?_, ?_⟩
  · intro p hp
    simp only [clear_production_captions, List.mem_map] at hp
    obtain ⟨q, _, hq⟩ := hp
    simp [← hq]
  · intro p hp
    simp only [clear_production_captions, List.mem_map] at hp
    obtain ⟨q, _, hq⟩ := hp
    simp [← hq]
  · intro p hp
    simp only [clear_production_captions, List.mem_map] at hp
    obtain ⟨q, _, hq⟩ := hp
    simp [← hq]
  · simp [clear_production_captions, List.map_map, Function.comp]

/-- Witness for claim C7 at a concrete input: clearing a populated state
empties the current line and history of "fr-FR", and clearing twice equals
clearing once. -/
theorem clear_resets_and_idempotent_witness :
    (("fr-FR", (["a"] : List String)) ∈ [("fr-FR", (["a"] : List String))] →
      (clear_production_captions ["fr-FR"] ⟨["x"], "c", "h", 3, "c"⟩
        ⟨"uc", true, [("fr-FR", ["a"])], [("fr-FR", "i")], some 5, []⟩).1.1.production_caption = "") ∧
    ((("fr-FR", ([] : List String)) ∈ (clear_production_captions ["fr-FR"]
        ⟨["x"], "c", "h", 3, "c"⟩
        ⟨"uc", true, [("fr-FR", ["a"])], [("fr-FR", "i")], some 5, []⟩).1.2.user_caption_history) ∧
     (("fr-FR", ([] : List String)) : String × List String).2 = []) ∧
    clear_production_captions ["fr-FR"]
        (clear_production_captions ["fr-FR"] ⟨["x"], "c", "h", 3, "c"⟩
          ⟨"uc", true, [("fr-FR", ["a"])], [("fr-FR", "i")], some 5, []⟩).1.1
        (clear_production_captions ["fr-FR"] ⟨["x"], "c", "h", 3, "c"⟩
          ⟨"uc", true, [("fr-FR", ["a"])], [("fr-FR", "i")], some 5, []⟩).1.2
      = clear_production_captions ["fr-FR"] ⟨["x"], "c", "h", 3, "c"⟩
          ⟨"uc", true, [("fr-FR", ["a"])], [("fr-FR", "i")], some 5, []⟩ :=
  ⟨fun _ => (clear_resets_and_idempotent ["fr-FR"] ⟨["x"], "c", "h", 3, "c"⟩
      ⟨"uc", true, [("fr-FR", ["a"])], [("fr-FR", "i")], some 5, []⟩).1,
   ⟨by decide,
    (clear_resets_and_idempotent ["fr-FR"] ⟨["x"], "c", "h", 3, "c"⟩
      ⟨"uc", true, [("fr-FR", ["a"])], [("fr-FR", "i")], some 5, []⟩).2.2.2.2.1
      ("fr-FR", ([] : List String)) (by decide)⟩,
   (clear_resets_and_idempotent ["fr-FR"] ⟨["x"], "c", "h", 3, "c"⟩
      ⟨"uc", true, [("fr-FR", ["a"])], [("fr-FR", "i")], some 5, []⟩).2.2.2.2.2.2.2.2⟩

/-- Claim C8 counterexample: starting from a state whose accumulated
context is `"hello world"`, a stop followed by a start does NOT preserve
`production_caption_history` — both endpoints reset it to the empty
string. -/
theorem stop_start_clears_accumulated_context :
    (start_recognition_endpoint (stop_recognition_endpoint
        ⟨⟨["line1"], "cap", "hello world", 0, "cap"⟩, true, true⟩)).prod.production_caption_history ≠
      (⟨⟨["line1"], "cap", "hello world", 0, "cap"⟩, true, true⟩ : RecogState).prod.production_caption_history := by
  decide

/-- Claim C8 (amended): across a stop() followed by a start() without an
intervening clear(), the transcript is preserved unchanged, but the
accumulated context (`production_caption_history`) is reset to the empty
string by the stop endpoint and again by the start endpoint. -/
theorem stop_start_preserves_transcript (s : RecogState) :
    (start_recognition_endpoint (stop_recognition_endpoint s)).prod.transcript
      = s.prod.transcript ∧
    (stop_recognition_endpoint s).prod.production_caption_history = "" ∧
    (start_recognition_endpoint (stop_recognition_endpoint s)).prod.production_caption_history
      = "" := by
  exact ⟨rfl, rfl, rfl⟩

/-- `check_and_clear_on_pause` never touches the transcript or the last
event time. -/
theorem check_and_clear_frame (p n : ℤ) (s : ProdState) :
    (check_and_clear_on_pause p n s).transcript = s.transcript ∧
    (check_and_clear_on_pause p n s).production_last_event_time
      = s.production_last_event_time := by
  unfold check_and_clear_on_pause
  split
  · split <;> exact ⟨rfl, rfl⟩
  · exact ⟨rfl, rfl⟩

/-- Processing a non-empty speech event refreshes
`production_last_event_time` to the current time. -/
theorem process_production_refreshes_time (cfg : ProdConfig)
    (dicts : CorrectionDicts) (now : ℤ) (t : String) (fin : Bool)
    (s : ProdState) (ht : t ≠ "") :
    (process_production_speech_text cfg dicts now (some t) fin s).production_last_event_time
      = now := by
  unfold process_production_speech_text
  simp only [ht, if_false, reduceIte]
  rw [(check_and_clear_frame cfg.pause_threshold_seconds now _).2]
  split <;> rfl

/-- Claim C2: with `pauseThresholdSeconds = 2`, a (production) speech event
at t=0 followed by a pause check at t=3 clears the displayed current line
(given it is non-blank) while leaving the transcript exactly as the event
left it. -/
theorem pause_clear_scenario (cfg : ProdConfig) (dicts : CorrectionDicts)
    (text : String) (fin : Bool) (s0 : ProdState) (ht : text ≠ "")
    (hcap : pyStrip (process_production_speech_text cfg dicts 0 (some text) fin s0).production_caption ≠ "") :
    (process_production_speech_text cfg dicts 0 (some text) fin s0).production_last_event_time = 0 ∧
    (check_and_clear_on_pause 2 3 (process_production_speech_text cfg dicts 0 (some text) fin s0)).production_caption = "" ∧
    (check_and_clear_on_pause 2 3 (process_production_speech_text cfg dicts 0 (some text) fin s0)).transcript
      = (process_production_speech_text cfg dicts 0 (some text) fin s0).transcript := by
  have htime := process_production_refreshes_time cfg dicts 0 text fin s0 ht
  refine ⟨htime, ?_, (check_and_clear_frame 2 3 _).1⟩
  unfold check_and_clear_on_pause
  rw [htime]
  rw [if_pos (by decide), if_pos hcap]

/-- Witness for claim C2 at a concrete input: the event text "hello"
processed at t=0 from a blank initial state, pause check at t=3. -/
theorem pause_clear_scenario_witness :
    ("hello" : String) ≠ "" ∧
    pyStrip (process_production_speech_text ⟨90, 10, 2⟩ ⟨[], []⟩ 0 (some "hello") false ⟨[], "", "", 5, ""⟩).production_caption ≠ "" ∧
    ((process_production_speech_text ⟨90, 10, 2⟩ ⟨[], []⟩ 0 (some "hello") false ⟨[], "", "", 5, ""⟩).production_last_event_time = 0 ∧
     (check_and_clear_on_pause 2 3 (process_production_speech_text ⟨90, 10, 2⟩ ⟨[], []⟩ 0 (some "hello") false ⟨[], "", "", 5, ""⟩)).production_caption = "" ∧
     (check_and_clear_on_pause 2 3 (process_production_speech_text ⟨90, 10, 2⟩ ⟨[], []⟩ 0 (some "hello") false ⟨[], "", "", 5, ""⟩)).transcript
       = (process_production_speech_text ⟨90, 10, 2⟩ ⟨[], []⟩ 0 (some "hello") false ⟨[], "", "", 5, ""⟩).transcript) :=
  ⟨by decide, by decide,
    pause_clear_scenario ⟨90, 10, 2⟩ ⟨[], []⟩ "hello" false ⟨[], "", "", 5, ""⟩
      (by decide) (by decide)⟩

/-! ### Claim C3: the transcript holds exactly the last N finals -/

/-- Processing a sequence of finalized production events (text, time). -/
def processFinals (cfg : ProdConfig) (dicts : CorrectionDicts)
    (events : List (String × ℤ)) (s : ProdState) : ProdState :=
  events.foldl
    (fun st e => process_production_speech_text cfg dicts e.2 (some e.1) true st) s

theorem dropAppendLen {α : Type} (a b : List α) (i : Nat) :
    (a ++ b).drop (a.length + i) = b.drop i := by
  induction a with
  | nil => simp
  | cons x xs ih => simp [Nat.succ_add, ih]

theorem length_takeLast {α : Type} (N : Nat) (l : List α) :
    (takeLast N l).length ≤ N := by
  unfold takeLast
  rw [List.length_drop]
  omega

theorem transcriptPush_eq_takeLast (N : Nat) (hN : 1 ≤ N) (l : List String)
    (x : String) : transcriptPush N l x = takeLast N (l ++ [x]) := by
  unfold transcriptPush pySliceLast takeLast
  by_cases h : (l ++ [x]).length > N
  · rw [if_pos h, if_neg (by omega)]
  · rw [if_neg h]
    have h0 : (l ++ [x]).length - N = 0 := by omega
    rw [h0, List.drop_zero]

theorem takeLast_takeLast_append {α : Type} (N : Nat) (l r : List α) :
    takeLast N (takeLast N l ++ r) = takeLast N (l ++ r) := by
  unfold takeLast
  by_cases h : l.length ≤ N
  · have h0 : l.length - N = 0 := by omega
    rw [h0, List.drop_zero]
  · push_neg at h
    have hk : l.length - N ≤ l.length := by omega
    have hlen : (l.drop (l.length - N)).length = N := by
      rw [List.length_drop]; omega
    have h1 : (l.drop (l.length - N) ++ r).length - N = r.length := by
      rw [List.length_append, hlen]; omega
    have h2 : (l ++ r).length - N = (l.length - N) + r.length := by
      rw [List.length_append]; omega
    rw [h1, h2]
    have htk : (l.take (l.length - N)).length = l.length - N := by
      rw [List.length_take]; omega
    have key := dropAppendLen (l.take (l.length - N))
      (l.drop (l.length - N) ++ r) r.length
    rw [htk, ← List.append_assoc, List.take_append_drop] at key
    exact key.symm

theorem process_production_final_transcript (cfg : ProdConfig)
    (dicts : CorrectionDicts) (now : ℤ) (t : String) (s : ProdState)
    (ht : t ≠ "") :
    (process_production_speech_text cfg dicts now (some t) true s).transcript
      = transcriptPush cfg.max_transcript_lines s.transcript
          (apply_text_corrections dicts t) := by
  unfold process_production_speech_text
  simp only [ht, if_false, reduceIte]
  rw [(check_and_clear_frame cfg.pause_threshold_seconds now _).1]

theorem processFinals_transcript (cfg : ProdConfig) (dicts : CorrectionDicts)
    (hN : 1 ≤ cfg.max_transcript_lines) :
    ∀ (events : List (String × ℤ)), (∀ e ∈ events, e.1 ≠ "") →
      ∀ (pref : List String) (s : ProdState),
        s.transcript = takeLast cfg.max_transcript_lines pref →
        (processFinals cfg dicts events s).transcript
          = takeLast cfg.max_transcript_lines
              (pref ++ events.map (fun e => apply_text_corrections dicts e.1)) := by
  intro events
  induction events with
  | nil =>
    intro _ pref s hs
    simpa [processFinals] using hs
  | cons e rest ih =>
    intro hne pref s hs
    have he : e.1 ≠ "" := hne e (List.mem_cons_self e rest)
    have hrest : ∀ x ∈ rest, x.1 ≠ "" := fun x hx => hne x (List.mem_cons_of_mem e hx)
    have hstep : (process_production_speech_text cfg dicts e.2 (some e.1) true s).transcript
        = takeLast cfg.max_transcript_lines (pref ++ [apply_text_corrections dicts e.1]) := by
      rw [process_production_final_transcript cfg dicts e.2 e.1 s he]
      rw [transcriptPush_eq_takeLast cfg.max_transcript_lines hN]
      rw [hs]
      exact takeLast_takeLast_append cfg.max_transcript_lines pref _
    have := ih hrest (pref ++ [apply_text_corrections dicts e.1])
      (process_production_speech_text cfg dicts e.2 (some e.1) true s) hstep
    calc (processFinals cfg dicts (e :: rest) s).transcript
        = (processFinals cfg dicts rest
            (process_production_speech_text cfg dicts e.2 (some e.1) true s)).transcript := rfl
      _ = takeLast cfg.max_transcript_lines
            ((pref ++ [apply_text_corrections dicts e.1])
              ++ rest.map (fun x => apply_text_corrections dicts x.1)) := this
      _ = takeLast cfg.max_transcript_lines
            (pref ++ (e :: rest).map (fun x => apply_text_corrections dicts x.1)) := by
          rw [List.append_assoc]
          rfl

/-- Claim C3: for every sequence of finalized production events (all with
non-empty text), starting from an empty transcript, the resulting
transcript is exactly the last `max_transcript_lines` normalized texts in
arrival order, and in particular its length never exceeds
`max_transcript_lines` (assumed positive; the Python slice `l[-0:]` would
disable truncation for a zero configuration). -/
theorem transcript_is_last_n (cfg : ProdConfig) (dicts : CorrectionDicts)
    (hN : 1 ≤ cfg.max_transcript_lines) (events : List (String × ℤ))
    (hne : ∀ e ∈ events, e.1 ≠ "") (s : ProdState) (hs : s.transcript = []) :
    (processFinals cfg dicts events s).transcript
      = takeLast cfg.max_transcript_lines
          (events.map (fun e => apply_text_corrections dicts e.1)) ∧
    (processFinals cfg dicts events s).transcript.length
      ≤ cfg.max_transcript_lines := by
  have h0 : s.transcript = takeLast cfg.max_transcript_lines [] := by
    simpa [takeLast] using hs
  have h := processFinals_transcript cfg dicts hN events hne [] s h0
  rw [List.nil_append] at h
  exact ⟨h, by rw [h]; exact length_takeLast _ _⟩

/-- Witness for claim C3 at a concrete input: three finals "a", "b", "c"
with `max_transcript_lines = 2` leave transcript `["b", "c"]`. -/
theorem transcript_is_last_n_witness :
    1 ≤ (2 : Nat) ∧
    (∀ e ∈ [("a", (0 : ℤ)), ("b", 1), ("c", 2)], e.1 ≠ "") ∧
    (⟨[], "", "", 0, ""⟩ : ProdState).transcript = [] ∧
    ((processFinals ⟨90, 2, 2⟩ ⟨[], []⟩ [("a", 0), ("b", 1), ("c", 2)]
        ⟨[], "", "", 0, ""⟩).transcript
      = takeLast 2 ([("a", (0 : ℤ)), ("b", 1), ("c", 2)].map
          (fun e => apply_text_corrections ⟨[], []⟩ e.1)) ∧
     (processFinals ⟨90, 2, 2⟩ ⟨[], []⟩ [("a", 0), ("b", 1), ("c", 2)]
        ⟨[], "", "", 0, ""⟩).transcript.length ≤ 2) :=
  ⟨by decide, by decide, rfl,
    transcript_is_last_n ⟨90, 2, 2⟩ ⟨[], []⟩ (by decide)
      [("a", 0), ("b", 1), ("c", 2)] (by decide) ⟨[], "", "", 0, ""⟩ rfl⟩

/-! ### Claim C4: per-language history bound, FIFO eviction, de-duplication -/

/-- One external trigger of the audience projection: a speech event
(production or translation) or the auto-finalize timer firing. -/
inductive UEvent where
  | speech (now : ℤ) (text : Option String)
      (translations : List (String × String)) (final : Bool)
  | autoFin

/-- Apply one trigger to the user-view state.  A raised exception kills the
callback thread but the mutations already made to the module-level state
persist, so processing continues from the returned state. -/
def applyUEvent (uset : UserSettings) (dicts : CorrectionDicts)
    (s : UserState) : UEvent → UserState
  | .speech now text translations fin =>
    (process_user_speech_text uset dicts now text translations fin s).1
  | .autoFin => (auto_finalize_user_speech uset s).1

/-- Apply a sequence of triggers to the user-view state. -/
def applyUEvents (uset : UserSettings) (dicts : CorrectionDicts)
    (events : List UEvent) (s : UserState) : UserState :=
  events.foldl (applyUEvent uset dicts) s

/-- Every language history in the state has at most `M` entries. -/
def HistBound (M : Nat) (s : UserState) : Prop :=
  ∀ L h, dget s.user_caption_history L = some h → h.length ≤ M

theorem histPush_length (M : Nat) (hM : 1 ≤ M) (h : List String) (c : String) :
    (histPush M h c).length ≤ M := by
  unfold histPush pySliceLast
  by_cases hgt : (h ++ [c]).length > M
  · rw [if_pos hgt, if_neg (by omega)]
    rw [List.length_drop]
    omega
  · rw [if_neg hgt]
    omega

theorem histPush_eq_transcriptPush (M : Nat) (l : List String) (x : String) :
    histPush M l x = transcriptPush M l x := rfl

theorem histBoundD_dset {M : Nat} {d : List (String × List String)}
    (hb : ∀ L h, dget d L = some h → h.length ≤ M) (lang : String)
    (new : List String) (hnew : new.length ≤ M) :
    ∀ L h, dget (dset d lang new) L = some h → h.length ≤ M := by
  intro L h hL
  by_cases hEq : L = lang
  · subst hEq
    rw [dget_dset_self] at hL
    cases hL
    exact hnew
  · rw [dget_dset_ne _ _ _ _ hEq] at hL
    exact hb L h hL

theorem userStep1_hist (uset : UserSettings) (now : ℤ) (fin : Bool)
    (lang c : String) (s : UserState) :
    (userStep1 uset now fin lang c s).1.user_caption_history
        = s.user_caption_history
    ∨ ∃ h, dget s.user_caption_history lang = some h ∧
        (userStep1 uset now fin lang c s).1.user_caption_history
          = dset s.user_caption_history lang (histPush uset.user_lines h c) := by
  unfold userStep1
  split
  · split
    · split
      · left; rfl
      · rename_i h heq
        dsimp only
        split
        · right
          refine ⟨h, heq, ?_⟩
          split <;> rfl
        · left
          split <;> rfl
    · left; rfl
  · left
    dsimp only
    split <;> rfl

theorem userDisplay_hist (uset : UserSettings) (lang : String) (s1 : UserState) :
    (userDisplay uset lang s1).1.user_caption_history
      = s1.user_caption_history := by
  unfold userDisplay
  rcases h1 : dget s1.user_caption_history lang with _ | h
  · simp [h1]
  · rcases h2 : dget s1.user_last_text lang with _ | lt
    · simp [h1, h2]
    · simp only [h1, h2]
      split <;> rfl

theorem processOneLang_hist_eq_step1 (uset : UserSettings) (now : ℤ)
    (fin : Bool) (lang c : String) (s : UserState) :
    (processOneLang uset now fin lang c s).1.user_caption_history
      = (userStep1 uset now fin lang c s).1.user_caption_history := by
  unfold processOneLang
  rcases hr : userStep1 uset now fin lang c s with ⟨s1, oe⟩
  cases oe with
  | none => simp only [hr]; exact userDisplay_hist uset lang s1
  | some e => simp [hr]

theorem histBound_processOneLang (uset : UserSettings) (now : ℤ) (fin : Bool)
    (lang c : String) (s : UserState) (hM : 1 ≤ uset.user_lines)
    (hb : HistBound uset.user_lines s) :
    HistBound uset.user_lines (processOneLang uset now fin lang c s).1 := by
  intro L h hL
  rw [processOneLang_hist_eq_step1] at hL
  rcases userStep1_hist uset now fin lang c s with heq | ⟨h0, hd, heq⟩
  · rw [heq] at hL
    exact hb L h hL
  · rw [heq] at hL
    exact histBoundD_dset hb lang _ (histPush_length _ hM h0 c) L h hL

theorem histBound_processLangs (uset : UserSettings) (now : ℤ) (fin : Bool)
    (hM : 1 ≤ uset.user_lines) :
    ∀ (items : List (String × String)) (s : UserState),
      HistBound uset.user_lines s →
      HistBound uset.user_lines (processLangs uset now fin items s).1 := by
  intro items
  induction items with
  | nil => intro s hb; exact hb
  | cons p rest ih =>
    intro s hb
    rcases p with ⟨lang, t⟩
    rcases hr : processOneLang uset now fin lang t s with ⟨s', oe⟩
    have hb' : HistBound uset.user_lines s' := by
      have hx := histBound_processOneLang uset now fin lang t s hM hb
      rw [hr] at hx
      exact hx
    cases oe with
    | none =>
      have hstep : processLangs uset now fin ((lang, t) :: rest) s
          = processLangs uset now fin rest s' := by
        show (match processOneLang uset now fin lang t s with
          | (s', some e) => (s', some e)
          | (s', none) => processLangs uset now fin rest s') = _
        rw [hr]
      rw [hstep]
      exact ih s' hb'
    | some e =>
      have hstep : processLangs uset now fin ((lang, t) :: rest) s = (s', some e) := by
        show (match processOneLang uset now fin lang t s with
          | (s', some e) => (s', some e)
          | (s', none) => processLangs uset now fin rest s') = _
        rw [hr]
      rw [hstep]
      exact hb'

theorem histBound_process_user (uset : UserSettings) (dicts : CorrectionDicts)
    (now : ℤ) (text : Option String) (translations : List (String × String))
    (fin : Bool) (s : UserState) (hM : 1 ≤ uset.user_lines)
    (hb : HistBound uset.user_lines s) :
    HistBound uset.user_lines
      (process_user_speech_text uset dicts now text translations fin s).1 :=
  histBound_processLangs uset now fin hM _ s hb

theorem autoFinOne_hist (uset : UserSettings) (lang interim : String)
    (s : UserState) :
    (autoFinOne uset lang interim s).1.user_caption_history
        = s.user_caption_history
    ∨ ∃ h, dget s.user_caption_history lang = some h ∧
        (autoFinOne uset lang interim s).1.user_caption_history
          = dset s.user_caption_history lang (histPush uset.user_lines h interim) := by
  unfold autoFinOne
  rcases h1 : dget s.user_caption_history lang with _ | h
  · left; simp [h1]
  · simp only [h1]
    split
    · right
      refine ⟨h, rfl, ?_⟩
      split <;> rfl
    · left
      split <;> rfl

theorem histBound_autoFinOne (uset : UserSettings) (lang interim : String)
    (s : UserState) (hM : 1 ≤ uset.user_lines)
    (hb : HistBound uset.user_lines s) :
    HistBound uset.user_lines (autoFinOne uset lang interim s).1 := by
  intro L h hL
  rcases autoFinOne_hist uset lang interim s with heq | ⟨h0, hd, heq⟩
  · rw [heq] at hL
    exact hb L h hL
  · rw [heq] at hL
    exact histBoundD_dset hb lang _ (histPush_length _ hM h0 interim) L h hL

theorem histBound_autoFinLoop (uset : UserSettings) (hM : 1 ≤ uset.user_lines) :
    ∀ (items : List (String × String)) (s : UserState),
      HistBound uset.user_lines s →
      HistBound uset.user_lines (autoFinLoop uset items s).1 := by
  intro items
  induction items with
  | nil => intro s hb; exact hb
  | cons p rest ih =>
    intro s hb
    rcases p with ⟨lang, interim⟩
    by_cases hcond : interim ≠ "" ∧ pyStrip interim ≠ ""
    · rcases hr : autoFinOne uset lang interim s with ⟨s', oe⟩
      have hb' : HistBound uset.user_lines s' := by
        have hx := histBound_autoFinOne uset lang interim s hM hb
        rw [hr] at hx
        exact hx
      cases oe with
      | none =>
        have hstep : autoFinLoop uset ((lang, interim) :: rest) s
            = autoFinLoop uset rest s' := by
          show (if interim ≠ "" ∧ pyStrip interim ≠ "" then
              match autoFinOne uset lang interim s with
              | (s', some e) => (s', some e)
              | (s', none) => autoFinLoop uset rest s'
            else autoFinLoop uset rest s) = _
          rw [if_pos hcond, hr]
        rw [hstep]
        exact ih s' hb'
      | some e =>
        have hstep : autoFinLoop uset ((lang, interim) :: rest) s = (s', some e) := by
          show (if interim ≠ "" ∧ pyStrip interim ≠ "" then
              match autoFinOne uset lang interim s with
              | (s', some e) => (s', some e)
              | (s', none) => autoFinLoop uset rest s'
            else autoFinLoop uset rest s) = _
          rw [if_pos hcond, hr]
        rw [hstep]
        exact hb'
    · have hstep : autoFinLoop uset ((lang, interim) :: rest) s
          = autoFinLoop uset rest s := by
        show (if interim ≠ "" ∧ pyStrip interim ≠ "" then
            match autoFinOne uset lang interim s with
            | (s', some e) => (s', some e)
            | (s', none) => autoFinLoop uset rest s'
          else autoFinLoop uset rest s) = _
        rw [if_neg hcond]
      rw [hstep]
      exact ih s hb

theorem histBound_auto_finalize (uset : UserSettings) (s : UserState)
    (hM : 1 ≤ uset.user_lines) (hb : HistBound uset.user_lines s) :
    HistBound uset.user_lines (auto_finalize_user_speech uset s).1 := by
  unfold auto_finalize_user_speech
  rcases hr : autoFinLoop uset s.user_last_text s with ⟨s', oe⟩
  have hb' : HistBound uset.user_lines s' := by
    have hx := histBound_autoFinLoop uset hM s.user_last_text s hb
    rw [hr] at hx
    exact hx
  cases oe with
  | none => simpa [hr] using hb'
  | some e => simpa [hr] using hb'

theorem histBound_init (M : Nat) (langs : List String) :
    HistBound M (initUserState langs) := by
  intro L h hL
  have : ∀ (ls : List String),
      dget (ls.map (fun l => (l, ([] : List String)))) L = some h → h = [] := by
    intro ls
    induction ls with
    | nil => intro hx; simp [dget] at hx
    | cons x xs ih =>
      intro hx
      simp only [List.map_cons, dget] at hx
      by_cases hxL : x = L
      · rw [if_pos hxL] at hx
        cases hx
        rfl
      · rw [if_neg hxL] at hx
        exact ih hx
  have h0 : h = [] := this langs hL
  subst h0
  simp

theorem histBound_applyUEvents (uset : UserSettings) (dicts : CorrectionDicts)
    (hM : 1 ≤ uset.user_lines) :
    ∀ (events : List UEvent) (s : UserState), HistBound uset.user_lines s →
      HistBound uset.user_lines (applyUEvents uset dicts events s) := by
  intro events
  induction events with
  | nil => intro s hb; exact hb
  | cons e rest ih =>
    intro s hb
    have hb' : HistBound uset.user_lines (applyUEvent uset dicts s e) := by
      cases e with
      | speech now text translations fin =>
        exact histBound_process_user uset dicts now text translations fin s hM hb
      | autoFin => exact histBound_auto_finalize uset s hM hb
    exact ih (applyUEvent uset dicts s e) hb'

theorem process_user_empty_text (uset : UserSettings) (dicts : CorrectionDicts)
    (now : ℤ) (lang : String) (fin : Bool) (s : UserState) :
    process_user_speech_text uset dicts now none [(lang, "")] fin s = (s, none) := by
  unfold process_user_speech_text
  simp [processLangs]

theorem process_user_singleton (uset : UserSettings) (dicts : CorrectionDicts)
    (now : ℤ) (lang text : String) (fin : Bool) (s : UserState)
    (ht : text ≠ "") :
    process_user_speech_text uset dicts now none [(lang, text)] fin s
      = processOneLang uset now fin lang (apply_text_corrections dicts text) s := by
  unfold process_user_speech_text
  simp only [ht, ne_eq, not_false_eq_true, List.filter_cons_of_pos,
    List.filter_nil, decide_eq_true_eq, List.map_cons, List.map_nil]
  rcases hr : processOneLang uset now fin lang (apply_text_corrections dicts text) s
    with ⟨s', oe⟩
  cases oe with
  | none => simp [processLangs, hr]
  | some e => simp [processLangs, hr]

theorem userStep1_final_nodup (uset : UserSettings) (now : ℤ) (lang c : String)
    (s : UserState) (h : List String)
    (hd : dget s.user_caption_history lang = some h) (hne : h ≠ [])
    (hc : c = h.getLastD "") :
    (userStep1 uset now true lang c s).1.user_caption_history
      = s.user_caption_history := by
  unfold userStep1
  rw [if_pos (show (true : Bool) = true from rfl)]
  by_cases hstrip : pyStrip c ≠ ""
  · rw [if_pos hstrip]
    simp only [hd]
    have hcond : ¬ (h = [] ∨ c ≠ h.getLastD "") := by
      push_neg
      exact ⟨hne, hc⟩
    rw [if_neg hcond]
    split <;> rfl
  · rw [if_neg hstrip]

theorem userStep1_final_append (uset : UserSettings) (now : ℤ) (lang c : String)
    (s : UserState) (h : List String)
    (hd : dget s.user_caption_history lang = some h)
    (hstrip : pyStrip c ≠ "") (hcond : h = [] ∨ c ≠ h.getLastD "") :
    (userStep1 uset now true lang c s).1.user_caption_history
      = dset s.user_caption_history lang (histPush uset.user_lines h c) := by
  unfold userStep1
  rw [if_pos (show (true : Bool) = true from rfl), if_pos hstrip]
  simp only [hd]
  rw [if_pos hcond]
  split <;> rfl

/-- Claim C4: with `user_lines = M ≥ 1`: (1) over every sequence of
audience-projection triggers from the initialized state, every language's
history holds at most `M` entries at all times; (2) a final result whose
normalized text equals the last history entry of its language leaves the
history dictionary unchanged (no duplicate appended); (3) when a new
non-blank final is appended, the language's history becomes exactly the
last `M` entries of the old history extended by the new text — the oldest
entries are evicted first. -/
theorem user_history_invariants (uset : UserSettings) (dicts : CorrectionDicts)
    (hM : 1 ≤ uset.user_lines) :
    (∀ (langs : List String) (events : List UEvent),
        HistBound uset.user_lines
          (applyUEvents uset dicts events (initUserState langs))) ∧
    (∀ (now : ℤ) (lang text : String) (s : UserState) (h : List String),
        dget s.user_caption_history lang = some h → h ≠ [] →
        apply_text_corrections dicts text = h.getLastD "" →
        (process_user_speech_text uset dicts now none [(lang, text)] true s).1.user_caption_history
          = s.user_caption_history) ∧
    (∀ (now : ℤ) (lang text : String) (s : UserState) (h : List String),
        dget s.user_caption_history lang = some h → text ≠ "" →
        pyStrip (apply_text_corrections dicts text) ≠ "" →
        (h = [] ∨ apply_text_corrections dicts text ≠ h.getLastD "") →
        dget (process_user_speech_text uset dicts now none [(lang, text)] true s).1.user_caption_history lang
          = some (takeLast uset.user_lines (h ++ [apply_text_corrections dicts text]))) := by
  refine ⟨?_, ?_, ?_⟩
  · intro langs events
    exact histBound_applyUEvents uset dicts hM events _ (histBound_init _ langs)
  · intro now lang text s h hd hne hc
    by_cases ht : text = ""
    · subst ht
      rw [process_user_empty_text]
    · rw [process_user_singleton uset dicts now lang text true s ht]
      rw [processOneLang_hist_eq_step1]
      exact userStep1_final_nodup uset now lang _ s h hd hne hc
  · intro now lang text s h hd ht hstrip hcond
    rw [process_user_singleton uset dicts now lang text true s ht]
    rw [processOneLang_hist_eq_step1]
    rw [userStep1_final_append uset now lang _ s h hd hstrip hcond]
    rw [dget_dset_self]
    rw [histPush_eq_transcriptPush, transcriptPush_eq_takeLast _ hM]

/-- Witness for claim C4 at concrete inputs: settings `⟨500, 3, 10⟩`, a
final "hi" promoted from the initial state stays within the bound; a
duplicate final "hi" leaves history untouched; a new final "new" appends
with FIFO truncation. -/
theorem user_history_invariants_witness :
    ((1 : Nat) ≤ 3) ∧
    ((["hi"] : List String).length ≤ 3) ∧
    ((process_user_speech_text ⟨500, 3, 10⟩ ⟨[], []⟩ 5 none [("en-US", "hi")] true
        ⟨"", false, [("en-US", ["hi"])], [("en-US", "")], none, []⟩).1.user_caption_history
      = [("en-US", ["hi"])]) ∧
    (dget (process_user_speech_text ⟨500, 3, 10⟩ ⟨[], []⟩ 5 none [("en-US", "new")] true
        ⟨"", false, [("en-US", ["hi"])], [("en-US", "")], none, []⟩).1.user_caption_history "en-US"
      = some (takeLast 3 (["hi"] ++ ["new"]))) :=
  ⟨by decide,
   (user_history_invariants ⟨500, 3, 10⟩ ⟨[], []⟩ (by decide)).1 ["en-US"]
     [UEvent.speech 0 (some "hi") [] true] "en-US" ["hi"] (by decide),
   (user_history_invariants ⟨500, 3, 10⟩ ⟨[], []⟩ (by decide)).2.1 5 "en-US" "hi"
     ⟨"", false, [("en-US", ["hi"])], [("en-US", "")], none, []⟩ ["hi"]
     (by decide) (by decide) (by decide),
   (user_history_invariants ⟨500, 3, 10⟩ ⟨[], []⟩ (by decide)).2.2 5 "en-US" "new"
     ⟨"", false, [("en-US", ["hi"])], [("en-US", "")], none, []⟩ ["hi"]
     (by decide) (by decide) (by decide) (by decide)⟩

/-! ### Claim C10: uninitialized language codes fail with KeyError -/

theorem userStep1_interim (uset : UserSettings) (now : ℤ) (lang c : String)
    (s : UserState) :
    (userStep1 uset now false lang c s).2 = none ∧
    (userStep1 uset now false lang c s).1.user_caption_history
      = s.user_caption_history := by
  unfold userStep1
  rw [if_neg (show ¬ (false : Bool) = true from by decide)]
  dsimp only
  constructor
  · rfl
  · split <;> rfl

theorem userStep1_final_missing (uset : UserSettings) (now : ℤ)
    (lang c : String) (s : UserState)
    (hd : dget s.user_caption_history lang = none) (hstrip : pyStrip c ≠ "") :
    userStep1 uset now true lang c s = (s, some (.keyError lang)) := by
  unfold userStep1
  rw [if_pos (show (true : Bool) = true from rfl), if_pos hstrip]
  simp only [hd]

theorem userStep1_final_blank (uset : UserSettings) (now : ℤ)
    (lang c : String) (s : UserState) (hstrip : ¬ pyStrip c ≠ "") :
    userStep1 uset now true lang c s = (s, none) := by
  unfold userStep1
  rw [if_pos (show (true : Bool) = true from rfl), if_neg hstrip]

theorem userDisplay_missing_hist (uset : UserSettings) (lang : String)
    (s1 : UserState) (hd : dget s1.user_caption_history lang = none) :
    userDisplay uset lang s1 = (s1, some (.keyError lang)) := by
  unfold userDisplay
  simp only [hd]

theorem userDisplay_no_error (uset : UserSettings) (lang : String)
    (s1 : UserState) (h : List String) (w : String)
    (hd : dget s1.user_caption_history lang = some h)
    (hw : dget s1.user_last_text lang = some w) :
    (userDisplay uset lang s1).2 = none := by
  unfold userDisplay
  simp only [hd, hw]

theorem userStep1_no_error (uset : UserSettings) (now : ℤ) (fin : Bool)
    (lang c : String) (s : UserState) (h : List String)
    (hd : dget s.user_caption_history lang = some h) :
    (userStep1 uset now fin lang c s).2 = none := by
  cases fin with
  | false => exact (userStep1_interim uset now lang c s).1
  | true =>
    by_cases hstrip : pyStrip c ≠ ""
    · unfold userStep1
      rw [if_pos (show (true : Bool) = true from rfl), if_pos hstrip]
      simp only [hd]
    · rw [userStep1_final_blank uset now lang c s hstrip]

theorem userStep1_lookups (uset : UserSettings) (now : ℤ) (fin : Bool)
    (lang c : String) (s : UserState) (h : List String) (w : String)
    (hd : dget s.user_caption_history lang = some h)
    (hw : dget s.user_last_text lang = some w) :
    (∃ h', dget (userStep1 uset now fin lang c s).1.user_caption_history lang = some h') ∧
    (∃ w', dget (userStep1 uset now fin lang c s).1.user_last_text lang = some w') := by
  cases fin with
  | false =>
    unfold userStep1
    rw [if_neg (show ¬ (false : Bool) = true from by decide)]
    dsimp only
    split
    · exact ⟨⟨h, hd⟩, ⟨c, dget_dset_self _ _ _⟩⟩
    · exact ⟨⟨h, hd⟩, ⟨c, dget_dset_self _ _ _⟩⟩
  | true =>
    by_cases hstrip : pyStrip c ≠ ""
    · unfold userStep1
      rw [if_pos (show (true : Bool) = true from rfl), if_pos hstrip]
      simp only [hd]
      split
      · split
        · exact ⟨⟨histPush uset.user_lines h c, dget_dset_self _ _ _⟩,
            ⟨"", dget_dset_self _ _ _⟩⟩
        · exact ⟨⟨histPush uset.user_lines h c, dget_dset_self _ _ _⟩,
            ⟨"", dget_dset_self _ _ _⟩⟩
      · split
        · exact ⟨⟨h, hd⟩, ⟨"", dget_dset_self _ _ _⟩⟩
        · exact ⟨⟨h, hd⟩, ⟨"", dget_dset_self _ _ _⟩⟩
    · rw [userStep1_final_blank uset now lang c s hstrip]
      exact ⟨⟨h, hd⟩, ⟨w, hw⟩⟩

theorem processOneLang_missing (uset : UserSettings) (now : ℤ) (fin : Bool)
    (lang c : String) (s : UserState)
    (hd : dget s.user_caption_history lang = none) :
    (processOneLang uset now fin lang c s).2 = some (.keyError lang) ∧
    (processOneLang uset now fin lang c s).1.user_caption_history
      = s.user_caption_history := by
  unfold processOneLang
  cases fin with
  | false =>
    have h1 := userStep1_interim uset now lang c s
    rcases hr : userStep1 uset now false lang c s with ⟨s1, oe⟩
    rw [hr] at h1
    have hoe : oe = none := h1.1
    subst hoe
    simp only [hr]
    have hd1 : dget s1.user_caption_history lang = none := by
      rw [h1.2]; exact hd
    rw [userDisplay_missing_hist uset lang s1 hd1]
    exact ⟨rfl, h1.2⟩
  | true =>
    by_cases hstrip : pyStrip c ≠ ""
    · rw [userStep1_final_missing uset now lang c s hd hstrip]
      exact ⟨rfl, rfl⟩
    · rw [userStep1_final_blank uset now lang c s hstrip]
      dsimp only
      rw [userDisplay_missing_hist uset lang s hd]
      exact ⟨rfl, rfl⟩

theorem processOneLang_no_error (uset : UserSettings) (now : ℤ) (fin : Bool)
    (lang c : String) (s : UserState) (h : List String) (w : String)
    (hd : dget s.user_caption_history lang = some h)
    (hw : dget s.user_last_text lang = some w) :
    (processOneLang uset now fin lang c s).2 = none := by
  unfold processOneLang
  rcases hr : userStep1 uset now fin lang c s with ⟨s1, oe⟩
  have hoe : oe = none := by
    have hx := userStep1_no_error uset now fin lang c s h hd
    rw [hr] at hx
    exact hx
  subst hoe
  simp only [hr]
  have hlook := userStep1_lookups uset now fin lang c s h w hd hw
  rw [hr] at hlook
  obtain ⟨⟨h', hh'⟩, ⟨w', hw'⟩⟩ := hlook
  exact userDisplay_no_error uset lang s1 h' w' hh' hw'

/-- Claim C10: the audience projection's per-language state exists only for
the language keys initialized at startup.  Applying an event for a language
code that is not a key of `user_caption_history` raises `KeyError` and
leaves the history dictionary unchanged (no entry is silently created); for
every initialized language (present in both per-language dicts) the
operation raises nothing. -/
theorem uninitialized_language_key_error (uset : UserSettings)
    (dicts : CorrectionDicts) :
    (∀ (now : ℤ) (lang text : String) (fin : Bool) (s : UserState),
        dget s.user_caption_history lang = none → text ≠ "" →
        (process_user_speech_text uset dicts now none [(lang, text)] fin s).2
            = some (PyError.keyError lang) ∧
        (process_user_speech_text uset dicts now none [(lang, text)] fin s).1.user_caption_history
            = s.user_caption_history) ∧
    (∀ (now : ℤ) (lang text : String) (fin : Bool) (s : UserState),
        (∃ h, dget s.user_caption_history lang = some h) →
        (∃ w, dget s.user_last_text lang = some w) →
        (process_user_speech_text uset dicts now none [(lang, text)] fin s).2 = none) := by
  constructor
  · intro now lang text fin s hd ht
    rw [process_user_singleton uset dicts now lang text fin s ht]
    exact processOneLang_missing uset now fin lang _ s hd
  · rintro now lang text fin s ⟨h, hd⟩ ⟨w, hw⟩
    by_cases ht : text = ""
    · subst ht
      rw [process_user_empty_text]
    · rw [process_user_singleton uset dicts now lang text fin s ht]
      exact processOneLang_no_error uset now fin lang _ s h w hd hw

/-- Witness for claim C10 at concrete inputs: language "xx-XX" is not among
the initialized keys, so an interim "hallo" raises `KeyError("xx-XX")` and
creates no history entry; "en-US" is initialized, so the same event raises
nothing. -/
theorem uninitialized_language_key_error_witness :
    ((process_user_speech_text ⟨500, 3, 10⟩ ⟨[], []⟩ 0 none [("xx-XX", "hallo")]
        false (initUserState ["en-US"])).2 = some (PyError.keyError "xx-XX") ∧
     (process_user_speech_text ⟨500, 3, 10⟩ ⟨[], []⟩ 0 none [("xx-XX", "hallo")]
        false (initUserState ["en-US"])).1.user_caption_history
       = (initUserState ["en-US"]).user_caption_history) ∧
    (process_user_speech_text ⟨500, 3, 10⟩ ⟨[], []⟩ 0 none [("en-US", "hallo")]
        false (initUserState ["en-US"])).2 = none :=
  ⟨(uninitialized_language_key_error ⟨500, 3, 10⟩ ⟨[], []⟩).1 0 "xx-XX" "hallo"
      false (initUserState ["en-US"]) (by decide) (by decide),
   (uninitialized_language_key_error ⟨500, 3, 10⟩ ⟨[], []⟩).2 0 "en-US" "hallo"
      false (initUserState ["en-US"]) ⟨[], by decide⟩ ⟨"", by decide⟩⟩

/-! ### Claim C6: router gating of the audience projection -/

/-- Claim C6 counterexample: with display language "fr-FR" selected, a
translation event carrying only Spanish text (`"es" ↦ "hola"`, mapped to
"es-ES") is still applied to the audience projection: the interim text of
"es-ES" changes from `""` to `"hola"`, although "es-ES" is not the selected
display language.  This refutes "the router calls the audience projection's
apply only for events whose language equals the currently selected display
language". -/
theorem router_gating_counterexample :
    dget (on_translation_recognizing sampleUserSettings emptyDicts 0 "fr-FR"
        [("es", "hola")] "" (initUserState sampleLangs)).1.user_last_text "es-ES"
      = some "hola" ∧
    dget (initUserState sampleLangs).user_last_text "es-ES" = some "" ∧
    ("es-ES" : String) ≠ "fr-FR" := by
  decide

/-- Claim C6 (amended): the router gates the audience projection per
recognizer, not per individual language.  (1) With a non-"en-US" display
language selected, a production (en-US) event leaves the audience state
completely unchanged and raises nothing — in particular
`AudienceState["fr-FR"]` is untouched and no audience broadcast is
scheduled.  (2) With "en-US" selected, translation events never reach the
audience projection.  (3) With "fr-FR" selected, a translation event
carrying `"fr" ↦ "bonjour"` updates `AudienceState["fr-FR"]` and schedules
the debounced audience broadcast; when a translation event does reach the
projection, every language of its bundle is applied (see the
counterexample), not only the selected one. -/
theorem router_language_gating (cfg : ProdConfig) (uset : UserSettings)
    (dicts : CorrectionDicts) :
    (∀ (sel : String), sel ≠ "en-US" →
      ∀ (now : ℤ) (text : String) (ps : ProdState) (us : UserState),
        (on_production_speech_recognizing cfg uset dicts now sel text ps us).2.1 = us ∧
        (on_production_speech_recognizing cfg uset dicts now sel text ps us).2.2 = none) ∧
    (∀ (now : ℤ) (translations : List (String × String)) (origText : String)
        (us : UserState),
        on_translation_recognizing uset dicts now "en-US" translations origText us
          = (us, none)) ∧
    (dget (on_translation_recognizing sampleUserSettings emptyDicts 0 "fr-FR"
        [("fr", "bonjour")] "" (initUserState sampleLangs)).1.user_last_text "fr-FR"
      = some "bonjour" ∧
     (on_translation_recognizing sampleUserSettings emptyDicts 0 "fr-FR"
        [("fr", "bonjour")] "" (initUserState sampleLangs)).1.user_caption_update_pending
      = true ∧
     dget (initUserState sampleLangs).user_last_text "fr-FR" = some "" ∧
     (initUserState sampleLangs).user_caption_update_pending = false) := by
  refine ⟨?_, ?_, by decide⟩
  · intro sel hsel now text ps us
    unfold on_production_speech_recognizing
    rw [if_neg hsel]
    exact ⟨rfl, rfl⟩
  · intro now translations origText us
    unfold on_translation_recognizing
    rw [if_neg (fun hh => hh rfl)]

/-- Witness for claim C6 at a concrete input: display language "fr-FR", an
en-US production event "hello" against the initial audience state. -/
theorem router_language_gating_witness :
    (("fr-FR" : String) ≠ "en-US") ∧
    ((on_production_speech_recognizing ⟨90, 10, 2⟩ ⟨500, 3, 10⟩ ⟨[], []⟩ 0 "fr-FR"
        "hello" ⟨[], "", "", 0, ""⟩ (initUserState sampleLangs)).2.1
      = initUserState sampleLangs ∧
     (on_production_speech_recognizing ⟨90, 10, 2⟩ ⟨500, 3, 10⟩ ⟨[], []⟩ 0 "fr-FR"
        "hello" ⟨[], "", "", 0, ""⟩ (initUserState sampleLangs)).2.2 = none) :=
  ⟨by decide,
   (router_language_gating ⟨90, 10, 2⟩ ⟨500, 3, 10⟩ ⟨[], []⟩).1 "fr-FR" (by decide)
     0 "hello" ⟨[], "", "", 0, ""⟩ (initUserState sampleLangs)⟩

/-! ### Claim C9: the text normalizer -/

theorem splitChars_ws_head (x : Char) (xs : List Char)
    (hx : x.isWhitespace = true) : splitChars (x :: xs) = splitChars xs := by
  cases xs with
  | nil => simp [splitChars, hx]
  | cons d r =>
    simp only [splitChars]
    rw [if_pos hx]

theorem splitChars_tokens : ∀ (cs : List Char) (t : List Char),
    t ∈ splitChars cs → t ≠ [] ∧ ∀ c ∈ t, c.isWhitespace = false := by
  intro cs
  induction cs with
  | nil => intro t ht; simp [splitChars] at ht
  | cons c rest ih =>
    cases rest with
    | nil =>
      intro t ht
      by_cases hc : c.isWhitespace = true
      · simp [splitChars, hc] at ht
      · have ht' : t = [c] := by simpa [splitChars, hc] using ht
        subst ht'
        refine ⟨by simp, ?_⟩
        intro x hx
        have hx' : x = c := by simpa using hx
        subst hx'
        simpa using hc
    | cons d rest' =>
      intro t ht
      by_cases hc : c.isWhitespace = true
      · rw [show splitChars (c :: d :: rest') = splitChars (d :: rest') from by
          simp only [splitChars]; rw [if_pos hc]] at ht
        exact ih t ht
      · rcases hsp : splitChars (d :: rest') with _ | ⟨t0, ts⟩
        · have heq0 : splitChars (c :: d :: rest') = [[c]] := by
            simp only [splitChars]
            rw [if_neg hc, hsp]
          rw [heq0] at ht
          have ht' : t = [c] := by simpa using ht
          subst ht'
          refine ⟨by simp, ?_⟩
          intro x hx
          have hx' : x = c := by simpa using hx
          subst hx'
          simpa using hc
        · have heq2 : splitChars (c :: d :: rest')
              = if d.isWhitespace = true then [c] :: t0 :: ts
                else (c :: t0) :: ts := by
            simp only [splitChars]
            rw [if_neg hc, hsp]
          rw [heq2] at ht
          by_cases hdws : d.isWhitespace = true
          · rw [if_pos hdws] at ht
            rcases List.mem_cons.mp ht with h1 | h2
            · subst h1
              refine ⟨by simp, ?_⟩
              intro x hx
              have hx' : x = c := by simpa using hx
              subst hx'
              simpa using hc
            · exact ih t (by rw [hsp]; exact h2)
          · rw [if_neg hdws] at ht
            rcases List.mem_cons.mp ht with h1 | h2
            · subst h1
              have ht0 := ih t0 (by rw [hsp]; exact List.mem_cons_self t0 ts)
              refine ⟨by simp, ?_⟩
              intro x hx
              rcases List.mem_cons.mp hx with h3 | h4
              · subst h3; simpa using hc
              · exact ht0.2 x h4
            · exact ih t (by rw [hsp]; exact List.mem_cons_of_mem t0 h2)

theorem splitChars_token : ∀ (w : List Char), w ≠ [] →
    (∀ c ∈ w, c.isWhitespace = false) → splitChars w = [w] := by
  intro w
  induction w with
  | nil => intro hne _; exact absurd rfl hne
  | cons c w' ih =>
    intro _ hwc
    have hc : c.isWhitespace = false := hwc c (List.mem_cons_self c w')
    cases w' with
    | nil => simp [splitChars, hc]
    | cons d w'' =>
      have hd : d.isWhitespace = false :=
        hwc d (List.mem_cons_of_mem c (List.mem_cons_self d w''))
      have hrec : splitChars (d :: w'') = [d :: w''] :=
        ih (by simp) (fun x hx => hwc x (List.mem_cons_of_mem c hx))
      simp only [splitChars]
      rw [if_neg (by simp [hc]), hrec]
      simp [hd]

theorem splitChars_token_sep : ∀ (w : List Char) (tail : List Char), w ≠ [] →
    (∀ c ∈ w, c.isWhitespace = false) →
    splitChars (w ++ ' ' :: tail) = w :: splitChars tail := by
  intro w
  induction w with
  | nil => intro tail hne _; exact absurd rfl hne
  | cons c w' ih =>
    intro tail _ hwc
    have hc : c.isWhitespace = false := hwc c (List.mem_cons_self c w')
    cases w' with
    | nil =>
      have hws : splitChars (' ' :: tail) = splitChars tail :=
        splitChars_ws_head ' ' tail (by decide)
      simp only [List.cons_append, List.nil_append, splitChars]
      rw [if_neg (by simp [hc]), hws]
      rcases hsp : splitChars tail with _ | ⟨t0, ts⟩
      · rfl
      · rfl
    | cons d w'' =>
      have hd : d.isWhitespace = false :=
        hwc d (List.mem_cons_of_mem c (List.mem_cons_self d w''))
      have hrec := ih tail (by simp)
        (fun x hx => hwc x (List.mem_cons_of_mem c hx))
      simp only [List.cons_append] at hrec ⊢
      simp only [splitChars]
      rw [if_neg (by simp [hc]), hrec]
      simp [hd]

theorem splitChars_joinChars : ∀ (ws : List (List Char)),
    (∀ w ∈ ws, w ≠ [] ∧ ∀ c ∈ w, c.isWhitespace = false) →
    splitChars (joinChars ' ' ws) = ws := by
  intro ws
  induction ws with
  | nil => intro _; rfl
  | cons w ws' ih =>
    intro h
    have hw := h w (List.mem_cons_self w ws')
    cases ws' with
    | nil =>
      show splitChars w = [w]
      exact splitChars_token w hw.1 hw.2
    | cons w2 ws'' =>
      show splitChars (w ++ ' ' :: joinChars ' ' (w2 :: ws'')) = _
      rw [splitChars_token_sep w _ hw.1 hw.2]
      rw [ih (fun x hx => h x (List.mem_cons_of_mem w hx))]

theorem pySplit_pyJoin (ws : List String)
    (h : ∀ w ∈ ws, w ≠ "" ∧ ∀ c ∈ w.data, c.isWhitespace = false) :
    pySplit (pyJoin ' ' ws) = ws := by
  unfold pySplit pyJoin
  rw [show (String.mk (joinChars ' ' (ws.map String.data))).data
      = joinChars ' ' (ws.map String.data) from rfl]
  rw [splitChars_joinChars (ws.map String.data) ?_]
  · rw [List.map_map]
    exact List.map_id ws
  · intro w' hw'
    obtain ⟨w, hwmem, rfl⟩ := List.mem_map.mp hw'
    refine ⟨?_, (h w hwmem).2⟩
    intro hnil
    exact (h w hwmem).1 (by rw [String.ext_iff]; exact hnil)

theorem dget_val_mem {α : Type} : ∀ (d : List (String × α)) (k : String) (v : α),
    dget d k = some v → ∃ p ∈ d, p.2 = v := by
  intro d
  induction d with
  | nil => intro k v h; simp [dget] at h
  | cons p rest ih =>
    intro k v h
    simp only [dget] at h
    by_cases hp : p.1 = k
    · rw [if_pos hp] at h
      cases h
      exact ⟨p, List.mem_cons_self p rest, rfl⟩
    · rw [if_neg hp] at h
      obtain ⟨q, hq, hqv⟩ := ih k v h
      exact ⟨q, List.mem_cons_of_mem p hq, hqv⟩

theorem pySplit_tokens (text : String) :
    ∀ w ∈ pySplit text, w ≠ "" ∧ ∀ c ∈ w.data, c.isWhitespace = false := by
  intro w hw
  unfold pySplit at hw
  obtain ⟨t, ht, rfl⟩ := List.mem_map.mp hw
  have htok := splitChars_tokens text.data t ht
  refine ⟨?_, htok.2⟩
  intro hempty
  exact htok.1 (congrArg String.data hempty)

/-- The claim's reading of the normalizer (built from the spec's words, for
comparison with `apply_text_corrections`): one pass over the whitespace
tokens; each token is replaced via the spellingMap entry whose key matches
it case-insensitively (unchanged when no entry matches); the result is
capitalized when it matches a properNouns entry case-insensitively. -/
def normalize_claim (dicts : CorrectionDicts) (text : String) : String :=
  pyJoin ' ' ((pySplit text).map (fun w =>
    let w' := ((dicts.spelling.find? (fun p => pyLower p.1 == pyLower w)).map
      (fun p => p.2)).getD w
    if pyLower w' ∈ dicts.bible.map pyLower then pyCapitalize w' else w'))

/-- Claim C9 counterexample: with the spelling map `{"Teh": "The"}` the
token "teh" matches the entry case-insensitively, so the claimed
case-insensitive replacement yields "The" — but the code looks up the
lowercased token against the stored keys exactly, misses "Teh", and leaves
"teh" unchanged. -/
theorem normalize_case_sensitivity_counterexample :
    apply_text_corrections ⟨[("Teh", "The")], []⟩ "teh" = "teh" ∧
    normalize_claim ⟨[("Teh", "The")], []⟩ "teh" = "The" ∧
    pyLower "Teh" = pyLower "teh" ∧
    ("teh" : String) ≠ "The" := by
  decide

/-- Claim C9 (amended): `apply_text_corrections` is pure and total; empty
input yields empty output; and — provided every spelling-map value is a
non-empty single token without whitespace — the two split/join passes fuse
into one pass over the whitespace tokens of the input, where each token `w`
is replaced by `spellingMap[w.lower()]` when that key is present (exact
match against the stored key, so the lookup is case-insensitive in the
token but entries with non-lowercase keys never match), and the result is
capitalized (first letter up, rest down) when it matches a `bible_books`
entry case-insensitively. -/
theorem normalize_tokenwise (dicts : CorrectionDicts)
    (hvals : ∀ p ∈ dicts.spelling, p.2 ≠ "" ∧ ∀ c ∈ p.2.data, c.isWhitespace = false)
    (text : String) :
    apply_text_corrections dicts text
      = pyJoin ' ' ((pySplit text).map (fun w =>
          let w' := (dget dicts.spelling (pyLower w)).getD w
          if pyLower w' ∈ dicts.bible.map pyLower then pyCapitalize w' else w')) ∧
    apply_text_corrections dicts "" = "" := by
  constructor
  · unfold apply_text_corrections correct_bible_books spelling_corrections
    rw [pySplit_pyJoin ((pySplit text).map
        (fun w => (dget dicts.spelling (pyLower w)).getD w)) ?_]
    · rw [List.map_map]
      rfl
    · intro w' hw'
      obtain ⟨w, hwmem, rfl⟩ := List.mem_map.mp hw'
      rcases hg : dget dicts.spelling (pyLower w) with _ | v
      · exact pySplit_tokens text w hwmem
      · obtain ⟨p, hp, hpv⟩ := dget_val_mem dicts.spelling (pyLower w) v hg
        show v ≠ "" ∧ ∀ c ∈ v.data, c.isWhitespace = false
        rw [← hpv]
        exact hvals p hp
  · rfl

/-- Witness for claim C9 at a concrete input: the real correction tables
from the repository's tests (`genisis ↦ Genesis`, Bible book `psalms`). -/
theorem normalize_tokenwise_witness :
    (∀ p ∈ [("genisis", "Genesis")], p.2 ≠ "" ∧
      ∀ c ∈ p.2.data, c.isWhitespace = false) ∧
    (apply_text_corrections ⟨[("genisis", "Genesis")], ["psalms"]⟩
        "genisis and psalms 23"
      = pyJoin ' ' ((pySplit "genisis and psalms 23").map (fun w =>
          let w' := (dget [("genisis", "Genesis")] (pyLower w)).getD w
          if pyLower w' ∈ ["psalms"].map pyLower then pyCapitalize w' else w')) ∧
     apply_text_corrections ⟨[("genisis", "Genesis")], ["psalms"]⟩ "" = "") :=
  ⟨by decide,
   normalize_tokenwise ⟨[("genisis", "Genesis")], ["psalms"]⟩ (by decide)
     "genisis and psalms 23"⟩

end CaptionStable
